import Mathlib

/-
Shallow embedding of the to-do application's task store, persistence adapter
and import operation (source: script.js).

Dynamic JavaScript values that cross the JSON boundary are modelled by the
`Json` inductive; well-formed tasks by the `Task` structure.  Environment
inputs read by the program (Date.now(), new Date().toISOString(), the text
field's value, the user's confirm() answer, the contents of the storage
slot) are passed as explicit parameters.  JSON.stringify / JSON.parse are
modelled by a concrete renderer and a fuel-indexed recursive-descent parser
over the JSON fragment the application traffics in (integers, strings with
quote/backslash escapes, booleans, null, arrays, objects, no insignificant
whitespace — JSON.stringify emits exactly this compact form).
-/

namespace Todo

/-- A dynamic JSON value, modelling the JavaScript values produced by
JSON.parse and consumed by JSON.stringify. -/
inductive Json where
  | null
  | bool (b : Bool)
  | num (n : Int)
  | str (s : String)
  | arr (elems : List Json)
  | obj (fields : List (String × Json))

/-- A well-formed task record, as built by handleAddTask (script.js:155-160):
`{ id: Date.now(), text: taskText, completed: false, createdAt: ... }`. -/
structure Task where
  id : Int
  text : String
  completed : Bool
  createdAt : String
deriving DecidableEq, Repr

/-- The JavaScript object value of a task, with JSON.stringify's field order
(property insertion order from script.js:155-160). -/
def encodeTask (t : Task) : Json :=
  Json.obj [("id", Json.num t.id), ("text", Json.str t.text),
    ("completed", Json.bool t.completed), ("createdAt", Json.str t.createdAt)]

/-- The JavaScript array value of a task collection. -/
def encodeTasks (ts : List Task) : Json := Json.arr (ts.map encodeTask)

/-- Reads a dynamic value back as a well-formed task record; `none` when the
value does not have the Task shape of the data model (spec 3 and 6:
id number, text string, completed boolean, createdAt string). -/
def decodeTask : Json → Option Task
  | Json.obj [("id", Json.num n), ("text", Json.str s),
      ("completed", Json.bool b), ("createdAt", Json.str c)] => some ⟨n, s, b, c⟩
  | _ => none

/-- Reads a list of dynamic values back as task records. -/
def decodeTaskList : List Json → Option (List Task)
  | [] => some []
  | v :: vs =>
    match decodeTask v, decodeTaskList vs with
    | some t, some ts => some (t :: ts)
    | _, _ => none

/-- Reads a dynamic value back as a task collection. -/
def decodeTasks : Json → Option (List Task)
  | Json.arr xs => decodeTaskList xs
  | _ => none

/-- The character for a decimal digit value below ten. -/
def digitChar (n : Nat) : Char := Char.ofNat (48 + n)

/-- Decimal digits of a natural number, most significant first, as
JSON.stringify renders nonnegative integers. -/
def digitsOfNat (n : Nat) : List Char :=
  if n < 10 then [digitChar n] else digitsOfNat (n / 10) ++ [digitChar (n % 10)]
termination_by n
decreasing_by omega

/-- Decimal rendering of an integer, as JSON.stringify renders integers. -/
def digitsOfInt (n : Int) : List Char :=
  if n < 0 then '-' :: digitsOfNat n.natAbs else digitsOfNat n.toNat

/-- JSON string-body escaping as JSON.stringify performs it on the characters
occurring in this application's data (quote and backslash). -/
def escapeChars : List Char → List Char
  | [] => []
  | c :: cs => if c = '"' ∨ c = '\\' then '\\' :: c :: escapeChars cs else c :: escapeChars cs

/-- JSON.stringify of one task object: field order and punctuation exactly as
emitted for the object literal of script.js:155-160. -/
def renderTask (t : Task) : List Char :=
  ['{', '"', 'i', 'd', '"', ':'] ++ digitsOfInt t.id
  ++ [',', '"', 't', 'e', 'x', 't', '"', ':', '"'] ++ escapeChars t.text.data
  ++ ['"', ',', '"', 'c', 'o', 'm', 'p', 'l', 'e', 't', 'e', 'd', '"', ':']
  ++ (if t.completed then ['t', 'r', 'u', 'e'] else ['f', 'a', 'l', 's', 'e'])
  ++ [',', '"', 'c', 'r', 'e', 'a', 't', 'e', 'd', 'A', 't', '"', ':', '"']
  ++ escapeChars t.createdAt.data
  ++ ['"', '}']

/-- Comma-separated task objects (the interior of the stringified array). -/
def renderTasksInner : List Task → List Char
  | [] => []
  | [t] => renderTask t
  | t :: t2 :: ts => renderTask t ++ ',' :: renderTasksInner (t2 :: ts)

/-- JSON.stringify of the whole task array (script.js:434). -/
def renderTasks (ts : List Task) : List Char :=
  match ts with
  | [] => ['[', ']']
  | t :: ts2 => '[' :: (renderTasksInner (t :: ts2) ++ [']'])

/-- saveTasksToStorage (script.js:432-441): the string written under the
fixed storage key is JSON.stringify(tasks). -/
def saveTasksToStorage (ts : List Task) : String := String.mk (renderTasks ts)

/-- Consumes a maximal run of decimal digits, folding them onto an
accumulator; models JSON number scanning for the integers this app stores. -/
def parseDigits : List Char → Nat → Nat × List Char
  | [], a => (a, [])
  | c :: cs, a => if c.isDigit then parseDigits cs (a * 10 + (c.toNat - 48)) else (a, c :: cs)

/-- Scans a JSON string body after the opening quote, handling the quote and
backslash escapes; returns the unescaped body and the input after the
closing quote. -/
def parseStringAux : List Char → Option (List Char × List Char)
  | [] => none
  | c :: cs =>
    if c = '"' then some ([], cs)
    else if c = '\\' then
      match cs with
      | [] => none
      | d :: ds =>
        if d = '"' ∨ d = '\\' then (parseStringAux ds).map (fun p => (d :: p.1, p.2)) else none
    else (parseStringAux cs).map (fun p => (c :: p.1, p.2))

/-- What the parser is currently reading: a value, the elements of an array
after its opening bracket, or the members of an object after its brace. -/
inductive PMode where
  | val
  | elems
  | fields

/-- Result of one parsing phase, matching the three modes. -/
inductive PRes where
  | val (v : Json)
  | elems (vs : List Json)
  | fields (fs : List (String × Json))

/-- Fuel-indexed recursive-descent parser for the compact JSON fragment;
models JSON.parse on the strings this application reads and writes. -/
def parseF : Nat → PMode → List Char → Option (PRes × List Char)
  | 0, _, _ => none
  | _ + 1, .val, [] => none
  | fuel + 1, .val, c :: rest =>
    if c.isDigit then
      let p := parseDigits (c :: rest) 0
      some (.val (.num (p.1 : Int)), p.2)
    else if c = '-' then
      match rest with
      | [] => none
      | d :: ds =>
        if d.isDigit then
          let p := parseDigits (d :: ds) 0
          some (.val (.num (-(p.1 : Int))), p.2)
        else none
    else if c = '"' then
      match parseStringAux rest with
      | some (s, r) => some (.val (.str (String.mk s)), r)
      | none => none
    else if c = '[' then
      match rest with
      | ']' :: r => some (.val (.arr []), r)
      | _ =>
        match parseF fuel .elems rest with
        | some (.elems vs, r) => some (.val (.arr vs), r)
        | _ => none
    else if c = '{' then
      match rest with
      | '}' :: r => some (.val (.obj []), r)
      | _ =>
        match parseF fuel .fields rest with
        | some (.fields fs, r) => some (.val (.obj fs), r)
        | _ => none
    else if c = 't' then
      match rest with
      | 'r' :: 'u' :: 'e' :: r => some (.val (.bool true), r)
      | _ => none
    else if c = 'f' then
      match rest with
      | 'a' :: 'l' :: 's' :: 'e' :: r => some (.val (.bool false), r)
      | _ => none
    else if c = 'n' then
      match rest with
      | 'u' :: 'l' :: 'l' :: r => some (.val Json.null, r)
      | _ => none
    else none
  | fuel + 1, .elems, cs =>
    match parseF fuel .val cs with
    | some (.val v, ',' :: r2) =>
      match parseF fuel .elems r2 with
      | some (.elems vs, r3) => some (.elems (v :: vs), r3)
      | _ => none
    | some (.val v, ']' :: r2) => some (.elems [v], r2)
    | _ => none
  | fuel + 1, .fields, cs =>
    match cs with
    | '"' :: cs1 =>
      match parseStringAux cs1 with
      | some (key, ':' :: cs2) =>
        match parseF fuel .val cs2 with
        | some (.val v, ',' :: cs3) =>
          match parseF fuel .fields cs3 with
          | some (.fields fs, cs4) => some (.fields ((String.mk key, v) :: fs), cs4)
          | _ => none
        | some (.val v, '}' :: cs3) => some (.fields [(String.mk key, v)], cs3)
        | _ => none
      | _ => none
    | _ => none

/-- Parses one JSON value and returns the unconsumed remainder. -/
def parseVal (fuel : Nat) (cs : List Char) : Option (Json × List Char) :=
  match parseF fuel .val cs with
  | some (.val v, r) => some (v, r)
  | _ => none

/-- JSON.parse: the whole string must be one JSON value.  The fuel bound
2 * length + 2 dominates the recursion depth of any parse, since at most
two recursive phases run between consuming successive characters. -/
def parseJson (s : String) : Option Json :=
  match parseVal (2 * s.length + 2) s.data with
  | some (v, []) => some v
  | _ => none

/-- loadTasksFromStorage (script.js:449-464).  Input: the contents of the
storage slot (none when the key is absent).  Output: the value of the
`tasks` variable afterwards (it starts as the empty array, script.js:18)
and whether the catch block reported an error.  The `if (tasksJson)` test
is JavaScript truthiness, so a stored empty string is skipped silently. -/
def loadTasksFromStorage (slot : Option String) : Json × Bool :=
  match slot with
  | none => (Json.arr [], false)
  | some s =>
    if s = "" then (Json.arr [], false)
    else
      match parseJson s with
      | some v => (v, false)
      | none => (Json.arr [], true)

/-- JavaScript String.prototype.trim on the whitespace this model covers. -/
def jsTrim (s : String) : String :=
  String.mk (((s.data.dropWhile Char.isWhitespace).reverse.dropWhile Char.isWhitespace).reverse)

/-- JavaScript String.prototype.toLowerCase on the characters this model
covers. -/
def jsToLower (s : String) : String := String.mk (s.data.map Char.toLower)

/-- Outcome of handleAddTask: a task was appended, or the trimmed input was
empty (script.js:134-142), or a case-insensitive duplicate existed
(script.js:144-152). -/
inductive AddOutcome where
  | added (t : Task)
  | emptyInput
  | duplicate
deriving DecidableEq, Repr

/-- handleAddTask (script.js:129-181).  Inputs: the text field's value, the
environment's Date.now() and toISOString() readings, the current tasks.
Output: outcome, the tasks afterwards, and the collection value handed to
saveTasksToStorage (none when no save was triggered). -/
def handleAddTask (input : String) (now : Int) (createdAt : String) (ts : List Task) :
    AddOutcome × List Task × Option Json :=
  let taskText := jsTrim input
  if taskText = "" then (.emptyInput, ts, none)
  else if ts.any (fun t => jsToLower t.text == jsToLower taskText) then (.duplicate, ts, none)
  else
    let newTask : Task := { id := now, text := taskText, completed := false, createdAt := createdAt }
    let ts2 := ts ++ [newTask]
    (.added newTask, ts2, some (encodeTasks ts2))

/-- tasks.find(t => t.id === taskId) followed by in-place flip of that one
task (script.js:189-193): flips the first task with a matching id, and
reports whether one was found. -/
def toggleFirst (taskId : Int) : List Task → List Task × Bool
  | [] => ([], false)
  | t :: ts =>
    if t.id == taskId then ({ t with completed := !t.completed } :: ts, true)
    else
      let r := toggleFirst taskId ts
      (t :: r.1, r.2)

/-- toggleTaskCompletion (script.js:187-206): when a task with the id is
found its flag is flipped and the collection is saved; otherwise nothing
happens. -/
def toggleTaskCompletion (taskId : Int) (ts : List Task) : List Task × Option Json :=
  let r := toggleFirst taskId ts
  (r.1, if r.2 then some (encodeTasks r.1) else none)

/-- deleteTask (script.js:212-235): the handler only acts when the task's DOM
element exists, which renderTasks guarantees exactly for ids present in the
collection; the removal `tasks.filter(t => t.id !== taskId)` and the save
run together inside the animation callback (the 300 ms animation delay is
UI timing, out of the store model). -/
def deleteTask (taskId : Int) (ts : List Task) : List Task × Option Json :=
  if ts.any (fun t => t.id == taskId) then
    let ts2 := ts.filter (fun t => !(t.id == taskId))
    (ts2, some (encodeTasks ts2))
  else (ts, none)

/-- Outcome of handleClearCompleted: nothing to clear (script.js:245-248),
cleared n tasks, or the user declined the confirm() dialog. -/
inductive ClearOutcome where
  | nothingToClear
  | cleared (n : Nat)
  | cancelled
deriving DecidableEq, Repr

/-- handleClearCompleted (script.js:241-268).  Inputs: the user's confirm()
answer and the current tasks.  Output: outcome, the tasks afterwards, and
the collection value handed to saveTasksToStorage. -/
def handleClearCompleted (confirmed : Bool) (ts : List Task) :
    ClearOutcome × List Task × Option Json :=
  let completedCount := (ts.filter (fun t => t.completed)).length
  if completedCount = 0 then (.nothingToClear, ts, none)
  else if confirmed then
    let ts2 := ts.filter (fun t => !t.completed)
    (.cleared completedCount, ts2, some (encodeTasks ts2))
  else (.cancelled, ts, none)

/-- Outcome of importTasks: n records imported, the file was rejected (parse
failure or a non-array value, both landing in the same catch/alert path,
script.js:554-560), or the user declined the confirm() dialog. -/
inductive ImportOutcome where
  | imported (n : Nat)
  | invalidFormat
  | cancelled
deriving DecidableEq, Repr

/-- importTasks (script.js:534-564).  Inputs: the file's text, the user's
confirm() answer, and the current (dynamic) tasks value.  Output: outcome,
the tasks value afterwards, and the collection value handed to
saveTasksToStorage.  The only shape validation is Array.isArray
(script.js:542). -/
def importTasks (fileContent : String) (confirmed : Bool) (tasks : Json) :
    ImportOutcome × Json × Option Json :=
  match parseJson fileContent with
  | none => (.invalidFormat, tasks, none)
  | some v =>
    match v with
    | Json.arr xs =>
      if confirmed then (.imported xs.length, Json.arr xs, some (Json.arr xs))
      else (.cancelled, tasks, none)
    | _ => (.invalidFormat, tasks, none)

/-- One user-driven store operation, with the environment readings its
handler consumes. -/
inductive StoreOp where
  | add (input : String) (now : Int) (createdAt : String)
  | del (taskId : Int)
  | toggle (taskId : Int)

/-- The tasks state after one operation. -/
def applyOp (ts : List Task) : StoreOp → List Task
  | .add input now createdAt => (handleAddTask input now createdAt ts).2.1
  | .del i => (deleteTask i ts).1
  | .toggle i => (toggleTaskCompletion i ts).1

/-- The tasks state after a sequence of operations starting from the empty
collection (script.js:18). -/
def runOps (ops : List StoreOp) : List Task := ops.foldl applyOp []

/-- The Date.now() readings consumed by the add operations of a sequence, in
order. -/
def addTimes : List StoreOp → List Int
  | [] => []
  | .add _ now _ :: ops => now :: addTimes ops
  | _ :: ops => addTimes ops

/-- No two tasks of the collection share an id. -/
def idsDistinct (ts : List Task) : Prop := (ts.map Task.id).Nodup

/-- No two tasks of the collection have case-insensitively equal text. -/
def textsDistinct (ts : List Task) : Prop := (ts.map (fun t => jsToLower t.text)).Nodup

/-! Helper lemmas. -/

/-- A fully whitespace input trims to the empty string. -/
theorem jsTrim_of_all_whitespace (s : String) (h : s.data.all Char.isWhitespace = true) :
    jsTrim s = "" := by
  have h1 : s.data.dropWhile Char.isWhitespace = [] := by
    rw [List.dropWhile_eq_nil_iff]
    intro x hx
    exact List.all_eq_true.mp h x hx
  simp [jsTrim, h1]

/-- toggleFirst leaves every id in place. -/
theorem toggleFirst_map_id (i : Int) (ts : List Task) :
    ((toggleFirst i ts).1).map Task.id = ts.map Task.id := by
  induction ts with
  | nil => rfl
  | cons t ts ih =>
    by_cases h : (t.id == i) = true
    · simp [toggleFirst, h]
    · simp [toggleFirst, h, ih]

/-- toggleFirst leaves every text in place. -/
theorem toggleFirst_map_text (i : Int) (ts : List Task) :
    ((toggleFirst i ts).1).map (fun t => jsToLower t.text) =
      ts.map (fun t => jsToLower t.text) := by
  induction ts with
  | nil => rfl
  | cons t ts ih =>
    by_cases h : (t.id == i) = true
    · simp [toggleFirst, h]
    · simp [toggleFirst, h, ih]

/-- When no task matches, toggleFirst finds nothing and changes nothing. -/
theorem toggleFirst_not_found (i : Int) (ts : List Task) (h : ∀ t ∈ ts, t.id ≠ i) :
    toggleFirst i ts = (ts, false) := by
  induction ts with
  | nil => rfl
  | cons t ts ih =>
    have ht : (t.id == i) = false := by
      simp only [beq_eq_false_iff_ne, ne_eq]
      exact h t (List.mem_cons_self t ts)
    simp [toggleFirst, ht, ih fun u hu => h u (List.mem_cons_of_mem t hu)]

/-- toggleFirst flips exactly the first matching task. -/
theorem toggleFirst_found (i : Int) (pre : List Task) (t : Task) (post : List Task)
    (ht : t.id = i) (hpre : ∀ u ∈ pre, u.id ≠ i) :
    toggleFirst i (pre ++ t :: post) =
      (pre ++ { t with completed := !t.completed } :: post, true) := by
  induction pre with
  | nil => simp [toggleFirst, ht]
  | cons u pre ih =>
    have hu : (u.id == i) = false := by
      simp only [beq_eq_false_iff_ne, ne_eq]
      exact hpre u (List.mem_cons_self u pre)
    simp [toggleFirst, hu, ih fun v hv => hpre v (List.mem_cons_of_mem u hv)]

/-- The character of a digit value below ten is a digit character. -/
theorem digitChar_isDigit (n : Nat) (h : n < 10) : (digitChar n).isDigit = true := by
  interval_cases n <;> decide

/-- Code point of the character of a digit value below ten. -/
theorem digitChar_toNat (n : Nat) (h : n < 10) : (digitChar n).toNat = 48 + n := by
  interval_cases n <;> decide

/-- Scanning the decimal rendering of n onto an accumulator shifts the
accumulator past those digits and adds n. -/
theorem parseDigits_digitsOfNat (n : Nat) :
    ∀ a rest, parseDigits (digitsOfNat n ++ rest) a =
      parseDigits rest (a * 10 ^ (digitsOfNat n).length + n) := by
  induction n using Nat.strong_induction_on with
  | _ n ih =>
    intro a rest
    by_cases h : n < 10
    · rw [digitsOfNat, if_pos h]
      simp only [List.singleton_append, parseDigits, digitChar_isDigit n h,
        digitChar_toNat n h, if_true, List.length_singleton, pow_one]
      congr 1
      omega
    · rw [digitsOfNat, if_neg h, List.append_assoc, ih (n / 10) (by omega) a _]
      have h10 : n % 10 < 10 := by omega
      simp only [List.singleton_append, parseDigits, digitChar_isDigit _ h10,
        digitChar_toNat _ h10, if_true, List.length_append, List.length_singleton]
      congr 1
      rw [pow_succ, ← mul_assoc]
      generalize a * 10 ^ (digitsOfNat (n / 10)).length = m
      omega

/-- Scanning stops at a non-digit (or at the end of input). -/
theorem parseDigits_stop (rest : List Char) (a : Nat)
    (h : ∀ c cs, rest = c :: cs → c.isDigit = false) :
    parseDigits rest a = (a, rest) := by
  cases rest with
  | nil => rfl
  | cons c cs => simp [parseDigits, h c cs rfl]

/-- The decimal rendering of n followed by a non-digit scans to exactly n. -/
theorem parseDigits_exact (n : Nat) (rest : List Char)
    (h : ∀ c cs, rest = c :: cs → c.isDigit = false) :
    parseDigits (digitsOfNat n ++ rest) 0 = (n, rest) := by
  rw [parseDigits_digitsOfNat n 0 rest, parseDigits_stop rest _ h]
  simp

/-- The decimal rendering of a number starts with a digit character. -/
theorem digitsOfNat_head (n : Nat) :
    ∃ d ds, digitsOfNat n = d :: ds ∧ d.isDigit = true := by
  induction n using Nat.strong_induction_on with
  | _ n ih =>
    by_cases h : n < 10
    · exact ⟨digitChar n, [], by rw [digitsOfNat, if_pos h], digitChar_isDigit n h⟩
    · obtain ⟨d, ds, hds, hd⟩ := ih (n / 10) (by omega)
      refine ⟨d, ds ++ [digitChar (n % 10)], ?_, hd⟩
      rw [digitsOfNat, if_neg h, hds]
      simp

/-- Scanning the escaped rendering of a string body up to the closing quote
recovers the body and the remainder. -/
theorem parseStringAux_escapeChars (s : List Char) :
    ∀ rest, parseStringAux (escapeChars s ++ '"' :: rest) = some (s, rest) := by
  induction s with
  | nil =>
    intro rest
    rw [escapeChars, List.nil_append, parseStringAux.eq_def]
    rfl
  | cons c cs ih =>
    intro rest
    by_cases hc : c = '"' ∨ c = '\\'
    · rw [escapeChars, if_pos hc]
      simp only [List.cons_append]
      rw [parseStringAux.eq_def]
      simp [hc, ih rest]
    · rw [escapeChars, if_neg hc]
      simp only [List.cons_append]
      rw [parseStringAux.eq_def]
      push_neg at hc
      simp [hc.1, hc.2, ih rest]

/-! Claim theorems. -/

/-- C7: for every collection state, add applied to the empty string or to a
whitespace-only string always fails with the empty-input rejection and
leaves the collection unchanged (and triggers no save). -/
theorem add_blank_input_rejected (input : String) (now : Int) (createdAt : String)
    (ts : List Task) (h : input.data.all Char.isWhitespace = true) :
    handleAddTask input now createdAt ts = (AddOutcome.emptyInput, ts, none) := by
  simp [handleAddTask, jsTrim_of_all_whitespace input h]

/-- Witness for C7 at concrete input. -/
theorem add_blank_input_rejected_witness :
    handleAddTask "   " 7 "t0" [⟨1, "a", false, "t"⟩] =
      (AddOutcome.emptyInput, [⟨1, "a", false, "t"⟩], none) :=
  add_blank_input_rejected "   " 7 "t0" [⟨1, "a", false, "t"⟩] (by decide)

/-- C8: add on a non-empty trimmed input fails with the duplicate rejection
and leaves the collection unchanged whenever some existing task's text is
case-insensitively equal to the trimmed input text (the empty-input check
runs first, per the spec's validation order). -/
theorem add_duplicate_rejected (input : String) (now : Int) (createdAt : String)
    (ts : List Task) (hne : jsTrim input ≠ "")
    (hdup : ∃ t ∈ ts, jsToLower t.text = jsToLower (jsTrim input)) :
    handleAddTask input now createdAt ts = (AddOutcome.duplicate, ts, none) := by
  obtain ⟨t, htmem, htext⟩ := hdup
  have hany : ts.any (fun u => jsToLower u.text == jsToLower (jsTrim input)) = true := by
    rw [List.any_eq_true]
    exact ⟨t, htmem, by simp [htext]⟩
  simp [handleAddTask, hne, hany]

/-- Witness for C8: add "Buy milk" then add "buy milk"; the second fails. -/
theorem add_duplicate_rejected_witness :
    handleAddTask "buy milk" 2 "t1" (handleAddTask "Buy milk" 1 "t0" []).2.1 =
      (AddOutcome.duplicate, (handleAddTask "Buy milk" 1 "t0" []).2.1, none) :=
  add_duplicate_rejected "buy milk" 2 "t1" (handleAddTask "Buy milk" 1 "t0" []).2.1
    (by decide) ⟨⟨1, "Buy milk", false, "t0"⟩, by decide, by decide⟩

/-- C9: toggleCompletion flips the completed flag of the task whose id
matches (the first such task, which is unique when ids are), saving the
result, and is a no-op, not an error, when no task has that id. -/
theorem toggle_spec (taskId : Int) (ts : List Task) :
    ((∀ t ∈ ts, t.id ≠ taskId) → toggleTaskCompletion taskId ts = (ts, none)) ∧
    (∀ pre t post, ts = pre ++ t :: post → t.id = taskId → (∀ u ∈ pre, u.id ≠ taskId) →
      toggleTaskCompletion taskId ts =
        (pre ++ { t with completed := !t.completed } :: post,
          some (encodeTasks (pre ++ { t with completed := !t.completed } :: post)))) := by
  constructor
  · intro h
    simp [toggleTaskCompletion, toggleFirst_not_found taskId ts h]
  · intro pre t post hts ht hpre
    subst hts
    simp [toggleTaskCompletion, toggleFirst_found taskId pre t post ht hpre]

/-- Witness for C9 at concrete input. -/
theorem toggle_spec_witness :
    toggleTaskCompletion 5 [⟨4, "a", false, "t"⟩, ⟨5, "b", false, "t"⟩] =
      ([⟨4, "a", false, "t"⟩, ⟨5, "b", true, "t"⟩],
        some (encodeTasks [⟨4, "a", false, "t"⟩, ⟨5, "b", true, "t"⟩])) :=
  (toggle_spec 5 [⟨4, "a", false, "t"⟩, ⟨5, "b", false, "t"⟩]).2
    ([⟨4, "a", false, "t"⟩] : List Task) (⟨5, "b", false, "t"⟩ : Task) ([] : List Task)
    rfl rfl (by decide)

/-- C4 counterexample: on a collection with one completed task, the handler
asks for confirmation; when the user declines, nothing is removed, refuting
the claim that N completed tasks are always removed. -/
theorem clearCompleted_unconfirmed_removes_nothing :
    handleClearCompleted false [⟨1, "a", true, "t"⟩] =
      (ClearOutcome.cancelled, [⟨1, "a", true, "t"⟩], none) ∧
    (([⟨1, "a", true, "t"⟩] : List Task).filter (fun t => t.completed)).length = 1 :=
  ⟨rfl, rfl⟩

/-- C4 (amended): with zero completed tasks the handler reports nothing to
clear and changes nothing; with N greater than zero completed tasks and a
confirming user it removes exactly those N, reports N and saves; with a
declining user it changes nothing. -/
theorem clearCompleted_spec (confirmed : Bool) (ts : List Task) :
    ((ts.filter (fun t => t.completed)).length = 0 →
      handleClearCompleted confirmed ts = (ClearOutcome.nothingToClear, ts, none)) ∧
    (0 < (ts.filter (fun t => t.completed)).length → confirmed = true →
      handleClearCompleted confirmed ts =
        (ClearOutcome.cleared (ts.filter (fun t => t.completed)).length,
          ts.filter (fun t => !t.completed),
          some (encodeTasks (ts.filter (fun t => !t.completed))))) ∧
    (0 < (ts.filter (fun t => t.completed)).length → confirmed = false →
      handleClearCompleted confirmed ts = (ClearOutcome.cancelled, ts, none)) := by
  refine ⟨fun h0 => ?_, fun hn hc => ?_, fun hn hc => ?_⟩
  · simp [handleClearCompleted, h0]
  · subst hc
    simp [handleClearCompleted, Nat.pos_iff_ne_zero.mp hn]
  · subst hc
    simp [handleClearCompleted, Nat.pos_iff_ne_zero.mp hn]

/-- Witness for C4 exercising all three branches at concrete inputs. -/
theorem clearCompleted_spec_witness :
    handleClearCompleted true [⟨1, "a", false, "t"⟩] =
      (ClearOutcome.nothingToClear, [⟨1, "a", false, "t"⟩], none) ∧
    handleClearCompleted true [⟨1, "a", true, "t"⟩, ⟨2, "b", false, "t"⟩] =
      (ClearOutcome.cleared 1, [⟨2, "b", false, "t"⟩],
        some (encodeTasks [⟨2, "b", false, "t"⟩])) ∧
    handleClearCompleted false [⟨1, "a", true, "t"⟩] =
      (ClearOutcome.cancelled, [⟨1, "a", true, "t"⟩], none) :=
  ⟨(clearCompleted_spec true [⟨1, "a", false, "t"⟩]).1 rfl,
    (clearCompleted_spec true [⟨1, "a", true, "t"⟩, ⟨2, "b", false, "t"⟩]).2.1
      (by decide) rfl,
    (clearCompleted_spec false [⟨1, "a", true, "t"⟩]).2.2 (by decide) rfl⟩

/-- C10: load performs no shape validation on a successfully parsed stored
value; a stored JSON number, or an array of arbitrary objects, is installed
verbatim as the collection even though it is not an array of Task-shaped
records. -/
theorem load_installs_unvalidated_value :
    loadTasksFromStorage (some "5") = (Json.num 5, false) ∧
    decodeTasks (Json.num 5) = none ∧
    loadTasksFromStorage (some "[\x7b\x7d]") = (Json.arr [Json.obj []], false) ∧
    decodeTasks (Json.arr [Json.obj []]) = none := ⟨rfl, rfl, rfl, rfl⟩

/-- C6 counterexample: a stored empty string fails to parse (it is
malformed), yet load treats it as an absent slot because of JavaScript
truthiness: it returns the empty collection without reporting anything. -/
theorem load_empty_string_unreported :
    parseJson "" = none ∧ loadTasksFromStorage (some "") = (Json.arr [], false) := ⟨rfl, rfl⟩

/-- C6 (amended): an absent slot yields the empty collection with no error;
a stored empty string is likewise treated as absent (no report); any other
stored value that fails to parse yields the empty collection with the
condition reported, and startup does not crash. -/
theorem load_spec (s : String) :
    loadTasksFromStorage none = (Json.arr [], false) ∧
    (s = "" → loadTasksFromStorage (some s) = (Json.arr [], false)) ∧
    (s ≠ "" → parseJson s = none → loadTasksFromStorage (some s) = (Json.arr [], true)) := by
  refine ⟨rfl, fun h => ?_, fun h hp => ?_⟩
  · simp [loadTasksFromStorage, h]
  · simp [loadTasksFromStorage, h, hp]

/-- Witness for C6 at concrete inputs. -/
theorem load_spec_witness :
    loadTasksFromStorage (some "") = (Json.arr [], false) ∧
    loadTasksFromStorage (some "oops") = (Json.arr [], true) :=
  ⟨(load_spec "").2.1 rfl, (load_spec "oops").2.2 (by decide) rfl⟩

/-- C1 counterexample: the import operation accepts a payload whose element
is not Task-shaped: "[5]" passes the only check (Array.isArray), replaces
the collection and saves, instead of failing with a malformed-input
rejection. -/
theorem importTasks_accepts_malformed_elements :
    importTasks "[5]" true (Json.arr []) =
      (ImportOutcome.imported 1, Json.arr [Json.num 5], some (Json.arr [Json.num 5])) ∧
    decodeTask (Json.num 5) = none := ⟨rfl, rfl⟩

/-- C1 (amended): import validates only that the payload parses as a JSON
array; parse failures and non-array values are rejected (collection
unchanged, no save); a confirmed array import wholesale-replaces the
collection and saves it without any per-element shape validation. -/
theorem importTasks_spec (fileContent : String) (confirmed : Bool) (tasks : Json) :
    (parseJson fileContent = none →
      importTasks fileContent confirmed tasks = (ImportOutcome.invalidFormat, tasks, none)) ∧
    (∀ v, parseJson fileContent = some v → (∀ xs, v ≠ Json.arr xs) →
      importTasks fileContent confirmed tasks = (ImportOutcome.invalidFormat, tasks, none)) ∧
    (∀ xs, parseJson fileContent = some (Json.arr xs) → confirmed = true →
      importTasks fileContent confirmed tasks =
        (ImportOutcome.imported xs.length, Json.arr xs, some (Json.arr xs))) ∧
    (∀ xs, parseJson fileContent = some (Json.arr xs) → confirmed = false →
      importTasks fileContent confirmed tasks = (ImportOutcome.cancelled, tasks, none)) := by
  refine ⟨fun h => ?_, fun v hv hvarr => ?_, fun xs hxs hc => ?_, fun xs hxs hc => ?_⟩
  · simp [importTasks, h]
  · cases v with
    | arr xs => exact absurd rfl (hvarr xs)
    | null => simp [importTasks, hv]
    | bool b => simp [importTasks, hv]
    | num n => simp [importTasks, hv]
    | str s => simp [importTasks, hv]
    | obj fs => simp [importTasks, hv]
  · subst hc
    simp [importTasks, hxs]
  · subst hc
    simp [importTasks, hxs]

/-- C3: every mutating operation of the store, on success, hands the updated
collection to the persistence write within the same synchronous step:
add, toggleCompletion, delete, clearCompleted and replaceAll (import) each
produce a save of exactly the collection they leave behind. -/
theorem mutators_save_on_success (input createdAt fileContent : String) (now i : Int)
    (confirmed : Bool) (ts : List Task) (cur : Json) :
    ((∃ t, (handleAddTask input now createdAt ts).1 = AddOutcome.added t) →
      (handleAddTask input now createdAt ts).2.2 =
        some (encodeTasks (handleAddTask input now createdAt ts).2.1)) ∧
    ((toggleFirst i ts).2 = true →
      (toggleTaskCompletion i ts).2 = some (encodeTasks (toggleTaskCompletion i ts).1)) ∧
    (ts.any (fun t => t.id == i) = true →
      (deleteTask i ts).2 = some (encodeTasks (deleteTask i ts).1)) ∧
    ((∃ n, (handleClearCompleted confirmed ts).1 = ClearOutcome.cleared n) →
      (handleClearCompleted confirmed ts).2.2 =
        some (encodeTasks (handleClearCompleted confirmed ts).2.1)) ∧
    ((∃ n, (importTasks fileContent confirmed cur).1 = ImportOutcome.imported n) →
      (importTasks fileContent confirmed cur).2.2 =
        some ((importTasks fileContent confirmed cur).2.1)) := by
  refine ⟨?_, ?_, ?_, ?_, ?_⟩
  · rintro ⟨t, ht⟩
    by_cases h1 : jsTrim input = ""
    · simp [handleAddTask, h1] at ht
    · by_cases h2 : ts.any (fun u => jsToLower u.text == jsToLower (jsTrim input)) = true
      · simp [handleAddTask, h1, h2] at ht
      · simp [handleAddTask, h1, h2]
  · intro h
    simp [toggleTaskCompletion, h]
  · intro h
    simp [deleteTask, h]
  · rintro ⟨n, hn⟩
    by_cases h1 : (ts.filter (fun t => t.completed)).length = 0
    · simp [handleClearCompleted, h1] at hn
    · cases confirmed with
      | true => simp [handleClearCompleted, h1]
      | false => simp [handleClearCompleted, h1] at hn
  · rintro ⟨n, hn⟩
    cases hp : parseJson fileContent with
    | none => simp [importTasks, hp] at hn
    | some v =>
      cases v with
      | arr xs =>
        cases confirmed with
        | true => simp [importTasks, hp]
        | false => simp [importTasks, hp] at hn
      | null => simp [importTasks, hp] at hn
      | bool b => simp [importTasks, hp] at hn
      | num m => simp [importTasks, hp] at hn
      | str s => simp [importTasks, hp] at hn
      | obj fs => simp [importTasks, hp] at hn

/-- Witness for C3: one state in which all five operations succeed. -/
theorem mutators_save_on_success_witness :
    (handleAddTask "milk" 3 "t0" [⟨1, "a", true, "t"⟩]).2.2 =
      some (encodeTasks (handleAddTask "milk" 3 "t0" [⟨1, "a", true, "t"⟩]).2.1) ∧
    (toggleTaskCompletion 1 [⟨1, "a", true, "t"⟩]).2 =
      some (encodeTasks (toggleTaskCompletion 1 [⟨1, "a", true, "t"⟩]).1) ∧
    (deleteTask 1 [⟨1, "a", true, "t"⟩]).2 =
      some (encodeTasks (deleteTask 1 [⟨1, "a", true, "t"⟩]).1) ∧
    (handleClearCompleted true [⟨1, "a", true, "t"⟩]).2.2 =
      some (encodeTasks (handleClearCompleted true [⟨1, "a", true, "t"⟩]).2.1) ∧
    (importTasks "[]" true (Json.arr [])).2.2 =
      some ((importTasks "[]" true (Json.arr [])).2.1) :=
  let thm := mutators_save_on_success "milk" "t0" "[]" 3 1 true [⟨1, "a", true, "t"⟩]
    (Json.arr [])
  ⟨thm.1 ⟨⟨3, "milk", false, "t0"⟩, by decide⟩, thm.2.1 (by decide), thm.2.2.1 (by decide),
    thm.2.2.2.1 ⟨1, by decide⟩, thm.2.2.2.2 ⟨0, by decide⟩⟩

/-- C2 counterexample: two adds that observe the same Date.now() reading both
succeed and leave two tasks with the same id in the collection. -/
theorem add_same_timestamp_duplicate_ids :
    (handleAddTask "beta" 5 "t1" (runOps [StoreOp.add "alpha" 5 "t0"])).1 =
      AddOutcome.added ⟨5, "beta", false, "t1"⟩ ∧
    (runOps [StoreOp.add "alpha" 5 "t0", StoreOp.add "beta" 5 "t1"]).map Task.id = [5, 5] ∧
    ¬ idsDistinct (runOps [StoreOp.add "alpha" 5 "t0", StoreOp.add "beta" 5 "t1"]) := by
  refine ⟨by decide, by decide, ?_⟩
  simp only [idsDistinct]
  decide

/-- Invariant-preservation workhorse for C2: from a state whose ids and
lowercased texts are distinct and whose ids all lie below every upcoming
Date.now() reading, any operation sequence with strictly increasing add
timestamps preserves both distinctness properties. -/
theorem runOps_aux (ops : List StoreOp) (st : List Task)
    (hp : (addTimes ops).Pairwise (· < ·))
    (hid : idsDistinct st) (htx : textsDistinct st)
    (hlt : ∀ t ∈ st, ∀ n ∈ addTimes ops, t.id < n) :
    idsDistinct (ops.foldl applyOp st) ∧ textsDistinct (ops.foldl applyOp st) := by
  induction ops generalizing st with
  | nil => exact ⟨hid, htx⟩
  | cons op ops ih =>
    rw [List.foldl_cons]
    cases op with
    | add input now createdAt =>
      simp only [addTimes] at hp hlt
      have hp1 : ∀ n ∈ addTimes ops, now < n := fun n hn => (List.pairwise_cons.mp hp).1 n hn
      have hp2 := (List.pairwise_cons.mp hp).2
      by_cases h1 : jsTrim input = ""
      · have hst : applyOp st (StoreOp.add input now createdAt) = st := by
          simp [applyOp, handleAddTask, h1]
        rw [hst]
        exact ih st hp2 hid htx fun t htm n hn => hlt t htm n (List.mem_cons_of_mem _ hn)
      · by_cases h2 : st.any (fun u => jsToLower u.text == jsToLower (jsTrim input)) = true
        · have hst : applyOp st (StoreOp.add input now createdAt) = st := by
            simp [applyOp, handleAddTask, h1, h2]
          rw [hst]
          exact ih st hp2 hid htx fun t htm n hn => hlt t htm n (List.mem_cons_of_mem _ hn)
        · have hst : applyOp st (StoreOp.add input now createdAt) =
              st ++ [⟨now, jsTrim input, false, createdAt⟩] := by
            simp [applyOp, handleAddTask, h1, h2]
          rw [hst]
          apply ih _ hp2
          · simp only [idsDistinct, List.map_append, List.map_cons, List.map_nil]
            rw [List.nodup_append]
            refine ⟨hid, List.nodup_singleton _, ?_⟩
            intro a ha hb
            obtain ⟨t, htm, hideq⟩ := List.mem_map.mp ha
            have hanow : a = now := by simpa using hb
            have := hlt t htm now (List.mem_cons_self _ _)
            omega
          · simp only [textsDistinct, List.map_append, List.map_cons, List.map_nil]
            rw [List.nodup_append]
            refine ⟨htx, List.nodup_singleton _, ?_⟩
            intro a ha hb
            obtain ⟨t, htm, hteq⟩ := List.mem_map.mp ha
            have haeq : a = jsToLower (jsTrim input) := by simpa using hb
            have hne2 : jsToLower t.text ≠ jsToLower (jsTrim input) := by
              intro he
              apply h2
              rw [List.any_eq_true]
              exact ⟨t, htm, by simp [he]⟩
            exact hne2 (hteq.trans haeq)
          · intro t htm n hn
            rcases List.mem_append.mp htm with h | h
            · exact hlt t h n (List.mem_cons_of_mem _ hn)
            · have : t = ⟨now, jsTrim input, false, createdAt⟩ := by simpa using h
              rw [this]
              exact hp1 n hn
    | del i =>
      simp only [addTimes] at hp hlt
      by_cases h : st.any (fun t => t.id == i) = true
      · have hst : applyOp st (StoreOp.del i) = st.filter (fun t => !(t.id == i)) := by
          simp [applyOp, deleteTask, h]
        rw [hst]
        apply ih _ hp
        · simp only [idsDistinct] at hid ⊢
          exact ((List.filter_sublist st).map Task.id).nodup hid
        · simp only [textsDistinct] at htx ⊢
          exact ((List.filter_sublist st).map (fun t => jsToLower t.text)).nodup htx
        · exact fun t htm n hn => hlt t (List.mem_of_mem_filter htm) n hn
      · have hst : applyOp st (StoreOp.del i) = st := by
          simp [applyOp, deleteTask, h]
        rw [hst]
        exact ih st hp hid htx hlt
    | toggle i =>
      simp only [addTimes] at hp hlt
      have hst : applyOp st (StoreOp.toggle i) = (toggleFirst i st).1 := rfl
      rw [hst]
      apply ih _ hp
      · simp only [idsDistinct, toggleFirst_map_id]
        exact hid
      · simp only [textsDistinct, toggleFirst_map_text]
        exact htx
      · intro t htm n hn
        have hmem : t.id ∈ ((toggleFirst i st).1).map Task.id := List.mem_map_of_mem _ htm
        rw [toggleFirst_map_id] at hmem
        obtain ⟨u, hum, hue⟩ := List.mem_map.mp hmem
        rw [← hue]
        exact hlt u hum n hn

/-- C2 (amended): for every sequence of add, delete and toggleCompletion
operations from the empty collection in which the add operations observe
strictly increasing Date.now() readings, the collection never contains two
tasks with the same id nor two tasks with case-insensitively equal text —
in particular immediately after any successful add.  (Without the
fresh-timestamp assumption the id half fails, see the counterexample.) -/
theorem store_ops_preserve_uniqueness (ops : List StoreOp)
    (h : (addTimes ops).Pairwise (· < ·)) :
    idsDistinct (runOps ops) ∧ textsDistinct (runOps ops) :=
  runOps_aux ops [] h (by simp [idsDistinct]) (by simp [textsDistinct]) (by simp)

/-- Witness for C2 at a concrete operation sequence. -/
theorem store_ops_preserve_uniqueness_witness :
    idsDistinct (runOps [StoreOp.add "alpha" 1 "t0", StoreOp.toggle 1,
        StoreOp.add "beta" 2 "t1", StoreOp.del 1]) ∧
    textsDistinct (runOps [StoreOp.add "alpha" 1 "t0", StoreOp.toggle 1,
        StoreOp.add "beta" 2 "t1", StoreOp.del 1]) :=
  store_ops_preserve_uniqueness _ (by decide)

/-- Witness for C1 at concrete inputs. -/
theorem importTasks_spec_witness :
    importTasks "nope" true Json.null = (ImportOutcome.invalidFormat, Json.null, none) ∧
    importTasks "[true]" true (Json.arr []) =
      (ImportOutcome.imported 1, Json.arr [Json.bool true], some (Json.arr [Json.bool true])) :=
  ⟨(importTasks_spec "nope" true Json.null).1 rfl,
    (importTasks_spec "[true]" true (Json.arr [])).2.2.1 [Json.bool true] rfl rfl⟩


theorem parseF_num (fuel : Nat) (n : Int) (rest : List Char)
    (h : ∀ c cs, rest = c :: cs → c.isDigit = false) :
    parseF (fuel + 1) .val (digitsOfInt n ++ rest) = some (.val (.num n), rest) := by
  by_cases hn : n < 0
  · rw [digitsOfInt, if_pos hn]
    obtain ⟨d, ds, hds, hd⟩ := digitsOfNat_head n.natAbs
    have hpd : parseDigits (d :: (ds ++ rest)) 0 = (n.natAbs, rest) := by
      have h2 := parseDigits_exact n.natAbs rest h
      rwa [hds, List.cons_append] at h2
    rw [List.cons_append, hds, List.cons_append, parseF.eq_def]
    simp [hd, hpd, abs_of_neg hn]
  · rw [digitsOfInt, if_neg hn]
    obtain ⟨d, ds, hds, hd⟩ := digitsOfNat_head n.toNat
    have hpd : parseDigits (d :: (ds ++ rest)) 0 = (n.toNat, rest) := by
      have h2 := parseDigits_exact n.toNat rest h
      rwa [hds, List.cons_append] at h2
    rw [hds, List.cons_append, parseF.eq_def]
    simp [hd, hpd, (by omega : ((n.toNat : Nat) : Int) = n)]

theorem parseF_numv (fuel : Nat) (hf : 0 < fuel) (n : Int) (rest : List Char)
    (h : ∀ c cs, rest = c :: cs → c.isDigit = false) :
    parseF fuel .val (digitsOfInt n ++ rest) = some (.val (.num n), rest) := by
  obtain ⟨k, rfl⟩ : ∃ k, fuel = k + 1 := ⟨fuel - 1, by omega⟩
  exact parseF_num k n rest h

theorem parseF_str (fuel : Nat) (hf : 0 < fuel) (s : String) (rest : List Char) :
    parseF fuel .val ('"' :: (escapeChars s.data ++ '"' :: rest)) =
      some (.val (.str s), rest) := by
  obtain ⟨k, rfl⟩ : ∃ k, fuel = k + 1 := ⟨fuel - 1, by omega⟩
  obtain ⟨data⟩ := s
  rw [parseF.eq_def]
  simp [parseStringAux_escapeChars data rest]

theorem parseF_bool (fuel : Nat) (hf : 0 < fuel) (b : Bool) (rest : List Char) :
    parseF fuel .val ((if b then ['t', 'r', 'u', 'e'] else ['f', 'a', 'l', 's', 'e']) ++ rest) =
      some (.val (.bool b), rest) := by
  obtain ⟨k, rfl⟩ : ∃ k, fuel = k + 1 := ⟨fuel - 1, by omega⟩
  cases b
  · rw [parseF.eq_def]
    simp
  · rw [parseF.eq_def]
    simp

theorem parseF_task (fuel : Nat) (hf : 6 ≤ fuel) (t : Task) (rest : List Char) :
    parseF fuel .val (renderTask t ++ rest) = some (.val (encodeTask t), rest) := by
  obtain ⟨k, rfl⟩ : ∃ k, fuel = k + 6 := ⟨fuel - 6, by omega⟩
  have hkid : ∀ X : List Char, parseStringAux ('i' :: 'd' :: '"' :: X) = some (['i', 'd'], X) := by
    intro X
    simpa [escapeChars] using parseStringAux_escapeChars ['i', 'd'] X
  have hktext : ∀ X : List Char,
      parseStringAux ('t' :: 'e' :: 'x' :: 't' :: '"' :: X) = some (['t', 'e', 'x', 't'], X) := by
    intro X
    simpa [escapeChars] using parseStringAux_escapeChars ['t', 'e', 'x', 't'] X
  have hkcomp : ∀ X : List Char,
      parseStringAux ('c' :: 'o' :: 'm' :: 'p' :: 'l' :: 'e' :: 't' :: 'e' :: 'd' :: '"' :: X) =
        some (['c', 'o', 'm', 'p', 'l', 'e', 't', 'e', 'd'], X) := by
    intro X
    simpa [escapeChars] using
      parseStringAux_escapeChars ['c', 'o', 'm', 'p', 'l', 'e', 't', 'e', 'd'] X
  have hkcreated : ∀ X : List Char,
      parseStringAux ('c' :: 'r' :: 'e' :: 'a' :: 't' :: 'e' :: 'd' :: 'A' :: 't' :: '"' :: X) =
        some (['c', 'r', 'e', 'a', 't', 'e', 'd', 'A', 't'], X) := by
    intro X
    simpa [escapeChars] using
      parseStringAux_escapeChars ['c', 'r', 'e', 'a', 't', 'e', 'd', 'A', 't'] X
  have hf4 : ∀ X : List Char, parseF (k + 2) .fields
      ('"' :: 'c' :: 'r' :: 'e' :: 'a' :: 't' :: 'e' :: 'd' :: 'A' :: 't' :: '"' :: ':' :: '"' ::
        (escapeChars t.createdAt.data ++ '"' :: '}' :: X)) =
      some (.fields [("createdAt", Json.str t.createdAt)], X) := by
    intro X
    rw [parseF.eq_def]
    simp [hkcreated, parseF_str (k + 1) (by omega) t.createdAt ('}' :: X)]
  have hf3 : ∀ X : List Char, parseF (k + 3) .fields
      ('"' :: 'c' :: 'o' :: 'm' :: 'p' :: 'l' :: 'e' :: 't' :: 'e' :: 'd' :: '"' :: ':' ::
        ((if t.completed then ['t', 'r', 'u', 'e'] else ['f', 'a', 'l', 's', 'e']) ++
          ',' :: '"' :: 'c' :: 'r' :: 'e' :: 'a' :: 't' :: 'e' :: 'd' :: 'A' :: 't' :: '"' ::
            ':' :: '"' :: (escapeChars t.createdAt.data ++ '"' :: '}' :: X))) =
      some (.fields [("completed", Json.bool t.completed),
        ("createdAt", Json.str t.createdAt)], X) := by
    intro X
    rw [parseF.eq_def]
    simp [hkcomp, parseF_bool (k + 2) (by omega) t.completed
      (',' :: '"' :: 'c' :: 'r' :: 'e' :: 'a' :: 't' :: 'e' :: 'd' :: 'A' :: 't' :: '"' ::
        ':' :: '"' :: (escapeChars t.createdAt.data ++ '"' :: '}' :: X)), hf4 X]
  have hf2 : ∀ X : List Char, parseF (k + 4) .fields
      ('"' :: 't' :: 'e' :: 'x' :: 't' :: '"' :: ':' :: '"' ::
        (escapeChars t.text.data ++ '"' :: ',' ::
          '"' :: 'c' :: 'o' :: 'm' :: 'p' :: 'l' :: 'e' :: 't' :: 'e' :: 'd' :: '"' :: ':' ::
          ((if t.completed then ['t', 'r', 'u', 'e'] else ['f', 'a', 'l', 's', 'e']) ++
            ',' :: '"' :: 'c' :: 'r' :: 'e' :: 'a' :: 't' :: 'e' :: 'd' :: 'A' :: 't' :: '"' ::
              ':' :: '"' :: (escapeChars t.createdAt.data ++ '"' :: '}' :: X)))) =
      some (.fields [("text", Json.str t.text), ("completed", Json.bool t.completed),
        ("createdAt", Json.str t.createdAt)], X) := by
    intro X
    rw [parseF.eq_def]
    simp [hktext, parseF_str (k + 3) (by omega) t.text
      (',' :: '"' :: 'c' :: 'o' :: 'm' :: 'p' :: 'l' :: 'e' :: 't' :: 'e' :: 'd' :: '"' :: ':' ::
        ((if t.completed then ['t', 'r', 'u', 'e'] else ['f', 'a', 'l', 's', 'e']) ++
          ',' :: '"' :: 'c' :: 'r' :: 'e' :: 'a' :: 't' :: 'e' :: 'd' :: 'A' :: 't' :: '"' ::
            ':' :: '"' :: (escapeChars t.createdAt.data ++ '"' :: '}' :: X))), hf3 X]
  have hf1 : ∀ X : List Char, parseF (k + 5) .fields
      ('"' :: 'i' :: 'd' :: '"' :: ':' ::
        (digitsOfInt t.id ++ ',' ::
          '"' :: 't' :: 'e' :: 'x' :: 't' :: '"' :: ':' :: '"' ::
          (escapeChars t.text.data ++ '"' :: ',' ::
            '"' :: 'c' :: 'o' :: 'm' :: 'p' :: 'l' :: 'e' :: 't' :: 'e' :: 'd' :: '"' :: ':' ::
            ((if t.completed then ['t', 'r', 'u', 'e'] else ['f', 'a', 'l', 's', 'e']) ++
              ',' :: '"' :: 'c' :: 'r' :: 'e' :: 'a' :: 't' :: 'e' :: 'd' :: 'A' :: 't' :: '"' ::
                ':' :: '"' :: (escapeChars t.createdAt.data ++ '"' :: '}' :: X))))) =
      some (.fields [("id", Json.num t.id), ("text", Json.str t.text),
        ("completed", Json.bool t.completed), ("createdAt", Json.str t.createdAt)], X) := by
    intro X
    rw [parseF.eq_def]
    simp [hkid, parseF_numv (k + 4) (by omega) t.id
      (',' :: '"' :: 't' :: 'e' :: 'x' :: 't' :: '"' :: ':' :: '"' ::
        (escapeChars t.text.data ++ '"' :: ',' ::
          '"' :: 'c' :: 'o' :: 'm' :: 'p' :: 'l' :: 'e' :: 't' :: 'e' :: 'd' :: '"' :: ':' ::
          ((if t.completed then ['t', 'r', 'u', 'e'] else ['f', 'a', 'l', 's', 'e']) ++
            ',' :: '"' :: 'c' :: 'r' :: 'e' :: 'a' :: 't' :: 'e' :: 'd' :: 'A' :: 't' :: '"' ::
              ':' :: '"' :: (escapeChars t.createdAt.data ++ '"' :: '}' :: X))))
      (fun c cs hcc => by injection hcc with h1 h2; rw [← h1]; decide), hf2 X]
  rw [renderTask]
  simp only [List.cons_append, List.nil_append, List.append_assoc]
  rw [parseF.eq_def]
  simp [hf1 rest, encodeTask]

theorem parseF_elems (ts : List Task) :
    ∀ fuel : Nat, ts.length + 6 ≤ fuel → ts ≠ [] → ∀ rest : List Char,
      parseF fuel .elems (renderTasksInner ts ++ ']' :: rest) =
        some (.elems (ts.map encodeTask), rest) := by
  induction ts with
  | nil => exact fun fuel h hne rest => absurd rfl hne
  | cons t ts ih =>
    intro fuel h hne rest
    obtain ⟨k, rfl⟩ : ∃ k, fuel = k + 1 := ⟨fuel - 1, by omega⟩
    cases ts with
    | nil =>
      rw [renderTasksInner]
      rw [parseF.eq_def]
      simp [parseF_task k (by simp at h; omega) t (']' :: rest)]
    | cons t2 ts2 =>
      rw [renderTasksInner]
      simp only [List.append_assoc, List.cons_append]
      rw [parseF.eq_def]
      simp [parseF_task k (by simp at h; omega) t
          (',' :: (renderTasksInner (t2 :: ts2) ++ ']' :: rest)),
        ih k (by simp at h ⊢; omega) (List.cons_ne_nil t2 ts2) rest]

theorem renderTask_head (t : Task) : ∃ l, renderTask t = '{' :: l := by
  rw [renderTask]
  simp only [List.cons_append]
  exact ⟨_, rfl⟩

theorem renderTasksInner_head (t : Task) (ts : List Task) :
    ∃ l, renderTasksInner (t :: ts) = '{' :: l := by
  obtain ⟨l, hl⟩ := renderTask_head t
  cases ts with
  | nil =>
    rw [renderTasksInner]
    exact ⟨l, hl⟩
  | cons t2 ts2 =>
    rw [renderTasksInner, hl]
    simp only [List.cons_append]
    exact ⟨_, rfl⟩

theorem parseF_tasks (fuel : Nat) (ts : List Task) (rest : List Char)
    (h : ts.length + 7 ≤ fuel) :
    parseF fuel .val (renderTasks ts ++ rest) = some (.val (encodeTasks ts), rest) := by
  obtain ⟨k, rfl⟩ : ∃ k, fuel = k + 1 := ⟨fuel - 1, by omega⟩
  cases ts with
  | nil =>
    rw [renderTasks]
    rw [parseF.eq_def]
    simp [encodeTasks]
  | cons t ts =>
    rw [renderTasks]
    obtain ⟨l, hl⟩ := renderTasksInner_head t ts
    rw [hl]
    simp only [List.cons_append, List.append_assoc, List.singleton_append]
    rw [parseF.eq_def]
    have helems : parseF k .elems ('{' :: (l ++ ']' :: rest)) =
        some (.elems ((t :: ts).map encodeTask), rest) := by
      have h2 := parseF_elems (t :: ts) k (by simp at h ⊢; omega) (by simp) rest
      rwa [hl, List.cons_append] at h2
    simp [helems, encodeTasks]

theorem renderTask_length (t : Task) : 1 ≤ (renderTask t).length := by
  rw [renderTask]
  simp [List.length_append]

theorem renderTasksInner_length (ts : List Task) :
    ts.length ≤ (renderTasksInner ts).length := by
  induction ts with
  | nil => simp [renderTasksInner]
  | cons t ts ih =>
    cases ts with
    | nil =>
      rw [renderTasksInner]
      have := renderTask_length t
      simp
      omega
    | cons t2 ts2 =>
      rw [renderTasksInner]
      have h1 := renderTask_length t
      simp at ih ⊢
      omega

theorem renderTasks_length (ts : List Task) :
    ts.length + 2 ≤ (renderTasks ts).length := by
  cases ts with
  | nil => simp [renderTasks]
  | cons t ts =>
    rw [renderTasks]
    have := renderTasksInner_length (t :: ts)
    simp at this ⊢
    omega

theorem decodeTask_encodeTask (t : Task) : decodeTask (encodeTask t) = some t := rfl

theorem decodeTaskList_map_encodeTask (ts : List Task) :
    decodeTaskList (ts.map encodeTask) = some ts := by
  induction ts with
  | nil => rfl
  | cons t ts ih => simp [decodeTaskList, decodeTask_encodeTask, ih]

theorem parseJson_saveTasks (ts : List Task) :
    parseJson (saveTasksToStorage ts) = some (encodeTasks ts) := by
  cases ts with
  | nil => rfl
  | cons t0 ts0 =>
  rw [parseJson]
  have hdata : (saveTasksToStorage (t0 :: ts0)).data = renderTasks (t0 :: ts0) := rfl
  have hlen : (saveTasksToStorage (t0 :: ts0)).length = (renderTasks (t0 :: ts0)).length := rfl
  rw [hdata, hlen, parseVal]
  have h2 := parseF_tasks (2 * (renderTasks (t0 :: ts0)).length + 2) (t0 :: ts0) []
    (by have h3 := renderTasks_length (t0 :: ts0); simp at h3 ⊢; omega)
  rw [List.append_nil] at h2
  simp [h2]

/-- C5: for every task collection, load after save on the same storage slot
reconstructs the collection exactly: the installed dynamic value is the
encoding of the original collection (no error is reported), and that value
reads back as the original tasks in content and order. -/
theorem save_load_roundtrip (ts : List Task) :
    loadTasksFromStorage (some (saveTasksToStorage ts)) = (encodeTasks ts, false) ∧
    decodeTasks (encodeTasks ts) = some ts := by
  constructor
  · have hne : saveTasksToStorage ts ≠ "" := by
      have hl2 : ∃ l, renderTasks ts = '[' :: l := by
        cases ts with
        | nil => exact ⟨[']'], rfl⟩
        | cons t ts2 => rw [renderTasks]; exact ⟨_, rfl⟩
      obtain ⟨l, hl⟩ := hl2
      intro hcontra
      have hd := congrArg String.data hcontra
      rw [show (saveTasksToStorage ts).data = renderTasks ts from rfl, hl,
        show ("" : String).data = [] from rfl] at hd
      exact List.cons_ne_nil _ _ hd
    rw [loadTasksFromStorage]
    simp [hne, parseJson_saveTasks ts]
  · rw [encodeTasks]
    exact decodeTaskList_map_encodeTask ts

end Todo
